import Mathlib

/-!
Shallow embedding of `src/cleaned_inventory_system.py` (class `InventoryManager`).

A Python `dict` is modelled as an insertion-ordered association list
`List (String × Int)`: lookup finds the first matching key, assignment
updates the first matching entry in place or appends a fresh entry at the
end, deletion removes the key (Python dicts have unique keys, on which
domain removing all occurrences coincides with removing the one entry).
Python integers are `Int` (arbitrary precision).  Python's dynamic typing
at the validated boundary of `add_item` / `remove_item` is modelled by a
small value type `Val` covering the shapes the validation distinguishes
(`isinstance(x, str)` / `isinstance(x, int)`).  The source uses
`item.strip()` only for its truthiness — `not item.strip()` holds exactly
when every character of `item` is whitespace — modelled by `isBlank`.
Exceptions are modelled as error kinds carried in
`Except`: `TypeError ↦ TypeKind`, `ValueError ↦ ValueKind`,
`KeyError ↦ NotFoundKind`, `IOError ↦ IOKind`,
`json.JSONDecodeError ↦ ParseKind`.  Each mutating operation returns the
post-state table alongside its result, the post-state equal to the
pre-state on every failure path, exactly as the Python methods leave
`self.stock_data` untouched when they raise before the assignment.

The JSON persistence boundary is abstracted: `json.dump` of a dict with
string keys and integer values followed by `json.load` reproduces the dict
exactly (including insertion order), so a saved file is modelled as
holding the table itself (`FileData.valid`), and a file whose contents
`json.load` rejects is `FileData.malformed`.  The file system is a map
from paths to optional file data; `open` for reading on an absent path
raises `FileNotFoundError`, modelled by `none`.
-/

namespace Inventory

instance {ε α : Type} [DecidableEq ε] [DecidableEq α] : DecidableEq (Except ε α) := fun a b =>
  match a, b with
  | .error x, .error y =>
      if h : x = y then .isTrue (congrArg Except.error h)
      else .isFalse (fun hc => h (Except.error.inj hc))
  | .ok x, .ok y =>
      if h : x = y then .isTrue (congrArg Except.ok h)
      else .isFalse (fun hc => h (Except.ok.inj hc))
  | .error _, .ok _ => .isFalse (fun hc => Except.noConfusion hc)
  | .ok _, .error _ => .isFalse (fun hc => Except.noConfusion hc)

/-- `not s.strip()`: the string strips to empty, i.e. every character is
whitespace (in particular the empty string is blank). -/
def isBlank (s : String) : Bool :=
  s.data.all Char.isWhitespace

/-- Error kinds, one per exception class the source raises. -/
inductive Err where
  | TypeKind
  | ValueKind
  | NotFoundKind
  | IOKind
  | ParseKind
deriving DecidableEq

/-- Dynamically typed Python values, as far as the source's
`isinstance` checks distinguish them. -/
inductive Val where
  | vint : Int → Val
  | vstr : String → Val
  | vnone : Val
deriving DecidableEq

/-- `isinstance(v, str)`. -/
def Val.isStr : Val → Bool
  | .vstr _ => true
  | _ => false

/-- `isinstance(v, int)`. -/
def Val.isInt : Val → Bool
  | .vint _ => true
  | _ => false

/-- The string carried by a `vstr` value (meaningful only when `isStr`). -/
def Val.asStr : Val → String
  | .vstr s => s
  | _ => ""

/-- The integer carried by a `vint` value (meaningful only when `isInt`). -/
def Val.asInt : Val → Int
  | .vint n => n
  | _ => 0

/-- `self.stock_data`: a Python dict from item name to quantity,
as an insertion-ordered association list. -/
abbrev Table := List (String × Int)

/-- `d[k]` as an option: the value at the first matching key. -/
def dictGet : Table → String → Option Int
  | [], _ => none
  | (k, v) :: rest, key => if k = key then some v else dictGet rest key

/-- `d.get(k, dflt)`. -/
def dictGetD (t : Table) (key : String) (dflt : Int) : Int :=
  (dictGet t key).getD dflt

/-- `k in d`. -/
def dictContains (t : Table) (key : String) : Bool :=
  (dictGet t key).isSome

/-- `d[k] = v`: update the first matching entry in place, or append. -/
def dictSet : Table → String → Int → Table
  | [], key, val => [(key, val)]
  | (k, v) :: rest, key, val =>
      if k = key then (key, val) :: rest else (k, v) :: dictSet rest key val

/-- `del d[k]`: remove the entry (all matches; dict keys are unique). -/
def dictDel : Table → String → Table
  | [], _ => []
  | (k, v) :: rest, key =>
      if k = key then dictDel rest key else (k, v) :: dictDel rest key

/-- `InventoryManager.add_item(item, qty)` (the optional log sink is an
observability side channel with no effect on the table and is omitted).
Returns the post-state table and `True` on success, or the pre-state
table and the raised error kind. -/
def add_item (t : Table) (item qty : Val) : Table × Except Err Bool :=
  if ¬ item.isStr then
    (t, .error .TypeKind)
  else if isBlank item.asStr then
    (t, .error .ValueKind)
  else if ¬ qty.isInt then
    (t, .error .TypeKind)
  else if qty.asInt < 0 then
    (t, .error .ValueKind)
  else
    (dictSet t item.asStr (dictGetD t item.asStr 0 + qty.asInt), .ok true)

/-- `InventoryManager.remove_item(item, qty)`.  The source validates
`qty` before the membership lookup; `item` itself is not type-checked. -/
def remove_item (t : Table) (item : String) (qty : Val) : Table × Except Err Bool :=
  if ¬ qty.isInt ∨ qty.asInt < 0 then
    (t, .error .ValueKind)
  else if ¬ dictContains t item then
    (t, .error .NotFoundKind)
  else if dictGetD t item 0 - qty.asInt ≤ 0 then
    (dictDel t item, .ok true)
  else
    (dictSet t item (dictGetD t item 0 - qty.asInt), .ok true)

/-- `InventoryManager.get_qty(item)`: the stored quantity, or
`NotFoundKind` when absent.  Reads only; the table is not mutated. -/
def get_qty (t : Table) (item : String) : Except Err Int :=
  if ¬ dictContains t item then
    .error .NotFoundKind
  else
    .ok (dictGetD t item 0)

/-- `InventoryManager.check_low_items(threshold)`: names of items whose
quantity is strictly below the threshold, in table iteration order.
Reads only; the table is not mutated.  (The source's default threshold
is 5; callers here pass it explicitly.) -/
def check_low_items (t : Table) (threshold : Int) : List String :=
  match t with
  | [] => []
  | (item, quantity) :: rest =>
      if quantity < threshold then item :: check_low_items rest threshold
      else check_low_items rest threshold

/-- Contents of a file at the persistence boundary: either data that
`json.load` decodes to a string-keyed integer-valued mapping (the case
`json.dump` of a table produces), or contents `json.load` rejects. -/
inductive FileData where
  | valid : Table → FileData
  | malformed : FileData
deriving DecidableEq

/-- The file system: paths to optional file contents. -/
def FS := String → Option FileData

/-- `InventoryManager.load_data(file)`: on a missing file, warn and reset
the table to empty (success); on well-formed contents, replace the table
wholesale; on malformed contents, raise `ParseKind` with the table left
in its prior state (`json.load` raises before the assignment to
`self.stock_data`). -/
def load_data (t : Table) (fs : FS) (file : String) : Table × Except Err Unit :=
  match fs file with
  | none => ([], .ok ())
  | some (.valid u) => (u, .ok ())
  | some .malformed => (t, .error .ParseKind)

/-- `InventoryManager.save_data(file)`: serialize the table to the path
(happy path; an `IOKind` write failure leaves the table unchanged and is
not further modelled, no claim depending on it). -/
def save_data (t : Table) (fs : FS) (file : String) : FS × Except Err Unit :=
  (fun p => if p = file then some (.valid t) else fs p, .ok ())

/-- One API call on an `InventoryManager` (the operations claim C1
quantifies over, plus `save`, the only producer of loadable files). -/
inductive Op where
  | add (item qty : Val)
  | remove (item : String) (qty : Val)
  | load (file : String)
  | save (file : String)

/-- The manager together with its file system environment. -/
structure State where
  table : Table
  fs : FS

/-- Executing one operation; failures leave the state as the method
leaves `self.stock_data`. -/
def step (s : State) (op : Op) : State :=
  match op with
  | .add item qty => { s with table := (add_item s.table item qty).1 }
  | .remove item qty => { s with table := (remove_item s.table item qty).1 }
  | .load file => { s with table := (load_data s.table s.fs file).1 }
  | .save file => { s with fs := (save_data s.table s.fs file).1 }

/-- A fresh `InventoryManager()` (empty table) in an environment with no
files yet. -/
def initState : State :=
  { table := [], fs := fun _ => none }

/-- Running a call sequence from a fresh manager. -/
def runOps (ops : List Op) : State :=
  ops.foldl step initState

/-- The table invariant the code actually maintains: every stored
quantity is non-negative and every key has a non-whitespace character. -/
def TableInv (t : Table) : Prop :=
  ∀ p ∈ t, 0 ≤ p.2 ∧ isBlank p.1 = false

/-- Every well-formed file on disk holds a table satisfying the
invariant (true of every file `save_data` writes). -/
def FsInv (fs : FS) : Prop :=
  ∀ path u, fs path = some (.valid u) → TableInv u

/-- Combined state invariant. -/
def StateInv (s : State) : Prop :=
  TableInv s.table ∧ FsInv s.fs

theorem dictGet_dictSet_self (t : Table) (k : String) (v : Int) :
    dictGet (dictSet t k v) k = some v := by
  induction t with
  | nil => simp [dictSet, dictGet]
  | cons hd tl ih =>
      obtain ⟨k', v'⟩ := hd
      by_cases h : k' = k <;> simp [dictSet, dictGet, h, ih]

theorem dictGet_dictDel_self (t : Table) (k : String) :
    dictGet (dictDel t k) k = none := by
  induction t with
  | nil => simp [dictDel, dictGet]
  | cons hd tl ih =>
      obtain ⟨k', v'⟩ := hd
      by_cases h : k' = k <;> simp [dictDel, dictGet, h, ih]

theorem mem_dictSet (t : Table) (k : String) (v : Int) (p : String × Int)
    (hp : p ∈ dictSet t k v) : p = (k, v) ∨ p ∈ t := by
  induction t with
  | nil => simpa [dictSet] using hp
  | cons hd tl ih =>
      obtain ⟨k', v'⟩ := hd
      by_cases h : k' = k
      · simp only [dictSet, if_pos h, List.mem_cons] at hp
        rcases hp with hp | hp
        · exact Or.inl hp
        · exact Or.inr (List.mem_cons_of_mem _ hp)
      · simp only [dictSet, if_neg h, List.mem_cons] at hp
        rcases hp with hp | hp
        · exact Or.inr (by simp [hp])
        · rcases ih hp with hp' | hp'
          · exact Or.inl hp'
          · exact Or.inr (List.mem_cons_of_mem _ hp')

theorem mem_dictDel (t : Table) (k : String) (p : String × Int)
    (hp : p ∈ dictDel t k) : p ∈ t := by
  induction t with
  | nil => simp [dictDel] at hp
  | cons hd tl ih =>
      obtain ⟨k', v'⟩ := hd
      by_cases h : k' = k
      · simp only [dictDel, if_pos h] at hp
        exact List.mem_cons_of_mem _ (ih hp)
      · simp only [dictDel, if_neg h, List.mem_cons] at hp
        rcases hp with hp | hp
        · simp [hp]
        · exact List.mem_cons_of_mem _ (ih hp)

theorem dictGet_mem (t : Table) (k : String) (v : Int)
    (h : dictGet t k = some v) : (k, v) ∈ t := by
  induction t with
  | nil => simp [dictGet] at h
  | cons hd tl ih =>
      obtain ⟨k', v'⟩ := hd
      by_cases hk : k' = k
      · simp only [dictGet, if_pos hk] at h
        injection h with h
        subst hk h
        simp
      · simp only [dictGet, if_neg hk] at h
        exact List.mem_cons_of_mem _ (ih h)

theorem tableInv_dictSet (t : Table) (k : String) (v : Int)
    (ht : TableInv t) (hv : 0 ≤ v) (hk : isBlank k = false) :
    TableInv (dictSet t k v) := by
  intro p hp
  rcases mem_dictSet t k v p hp with h | h
  · subst h; exact ⟨hv, hk⟩
  · exact ht p h

theorem tableInv_dictDel (t : Table) (k : String) (ht : TableInv t) :
    TableInv (dictDel t k) := fun p hp => ht p (mem_dictDel t k p hp)

theorem tableInv_getD_nonneg (t : Table) (k : String)
    (ht : TableInv t) : 0 ≤ dictGetD t k 0 := by
  unfold dictGetD
  cases h : dictGet t k with
  | none => simp
  | some v => simpa using (ht (k, v) (dictGet_mem t k v h)).1

theorem tableInv_key_not_blank (t : Table) (k : String)
    (ht : TableInv t) (hc : dictContains t k = true) : isBlank k = false := by
  unfold dictContains at hc
  cases h : dictGet t k with
  | none => simp [h] at hc
  | some v => exact (ht (k, v) (dictGet_mem t k v h)).2

theorem tableInv_add_item (t : Table) (item qty : Val) (ht : TableInv t) :
    TableInv (add_item t item qty).1 := by
  unfold add_item
  split
  · exact ht
  split
  · exact ht
  split
  · exact ht
  split
  · exact ht
  rename_i hstr hblank hint hneg
  refine tableInv_dictSet _ _ _ ht ?_ (by simpa using hblank)
  have h0 := tableInv_getD_nonneg t item.asStr ht
  omega

theorem tableInv_remove_item (t : Table) (item : String) (qty : Val)
    (ht : TableInv t) : TableInv (remove_item t item qty).1 := by
  unfold remove_item
  split
  · exact ht
  split
  · exact ht
  rename_i hqty hmem
  split
  · exact tableInv_dictDel t item ht
  rename_i hpos
  refine tableInv_dictSet _ _ _ ht (by omega) ?_
  exact tableInv_key_not_blank t item ht (by simpa using hmem)

theorem tableInv_load_data (t : Table) (fs : FS) (file : String)
    (ht : TableInv t) (hfs : FsInv fs) : TableInv (load_data t fs file).1 := by
  unfold load_data
  cases h : fs file with
  | none => intro p hp; simp at hp
  | some d =>
      cases d with
      | valid u => exact hfs file u h
      | malformed => exact ht

theorem fsInv_save_data (t : Table) (fs : FS) (file : String)
    (ht : TableInv t) (hfs : FsInv fs) : FsInv (save_data t fs file).1 := by
  intro path u hu
  unfold save_data at hu
  by_cases h : path = file
  · simp only [h, if_pos rfl] at hu
    cases hu
    exact ht
  · simp only [if_neg h] at hu
    exact hfs path u hu

theorem stateInv_step (s : State) (op : Op) (hs : StateInv s) :
    StateInv (step s op) := by
  obtain ⟨ht, hfs⟩ := hs
  cases op with
  | add item qty => exact ⟨tableInv_add_item s.table item qty ht, hfs⟩
  | remove item qty => exact ⟨tableInv_remove_item s.table item qty ht, hfs⟩
  | load file => exact ⟨tableInv_load_data s.table s.fs file ht hfs, hfs⟩
  | save file => exact ⟨ht, fsInv_save_data s.table s.fs file ht hfs⟩

theorem stateInv_foldl (ops : List Op) (s : State) (hs : StateInv s) :
    StateInv (ops.foldl step s) := by
  induction ops generalizing s with
  | nil => exact hs
  | cons op rest ih => exact ih (step s op) (stateInv_step s op hs)

theorem stateInv_initState : StateInv initState := by
  constructor
  · intro p hp; simp [initState] at hp
  · intro path u hu; simp [initState] at hu

theorem get_qty_dictSet_self (t : Table) (k : String) (v : Int) :
    get_qty (dictSet t k v) k = .ok v := by
  unfold get_qty dictContains dictGetD
  rw [dictGet_dictSet_self]
  simp

theorem get_qty_dictDel_self (t : Table) (k : String) :
    get_qty (dictDel t k) k = .error .NotFoundKind := by
  unfold get_qty dictContains
  rw [dictGet_dictDel_self]
  simp

/-- C1 (amended): after any sequence of `add_item` / `remove_item` /
`load_data` (and `save_data`, the only producer of loadable files)
operations starting from a fresh manager with an empty table and no
files on disk, every value stored in `stock_data` is at least zero and
every key is a string that is non-empty after trimming whitespace.
(Strict positivity fails: `add_item` with quantity 0 stores an explicit
zero entry rather than leaving the item absent; `remove_item` alone
never leaves an entry ≤ 0.) -/
theorem table_invariant_nonneg (ops : List Op) :
    ∀ p ∈ (runOps ops).table, 0 ≤ p.2 ∧ isBlank p.1 = false :=
  (stateInv_foldl ops initState stateInv_initState).1

/-- Witness for C1's amended invariant at a concrete run. -/
theorem table_invariant_nonneg_witness :
    ("a", (2 : Int)) ∈ (runOps [Op.add (.vstr "a") (.vint 2)]).table ∧
      (0 ≤ (2 : Int) ∧ isBlank "a" = false) :=
  ⟨by decide, table_invariant_nonneg [Op.add (.vstr "a") (.vint 2)] ("a", 2) (by decide)⟩

/-- C1 is false as stated: the single operation `add_item("a", 0)` from a
fresh manager stores the entry `("a", 0)`, whose value is not strictly
greater than zero. -/
theorem table_invariant_strict_counterexample :
    ¬ (∀ p ∈ (runOps [Op.add (.vstr "a") (.vint 0)]).table, 0 < p.2) := by
  decide

/-- C2 (amended): for every item absent from the table, `remove_item`
fails with `NotFoundKind` and leaves the table unchanged whenever the
quantity is a non-negative integer; for a negative or non-integer
quantity it instead fails with `ValueKind` (quantity validation precedes
the membership lookup), still leaving the table unchanged. -/
theorem remove_item_absent (t : Table) (item : String) (qty : Val)
    (habs : dictContains t item = false) :
    (qty.isInt = true → 0 ≤ qty.asInt →
        remove_item t item qty = (t, .error .NotFoundKind)) ∧
    ((qty.isInt = false ∨ qty.asInt < 0) →
        remove_item t item qty = (t, .error .ValueKind)) := by
  constructor
  · intro hint hnn
    have h1 : ¬ (¬ qty.isInt = true ∨ qty.asInt < 0) := by
      rintro (h | h)
      · exact h hint
      · omega
    rw [remove_item, if_neg h1, if_pos (by simp [habs])]
  · intro hbad
    have h1 : ¬ qty.isInt = true ∨ qty.asInt < 0 := by
      rcases hbad with h | h
      · exact Or.inl (by simp [h])
      · exact Or.inr h
    rw [remove_item, if_pos h1]

/-- Witness for C2's amended statement at concrete inputs. -/
theorem remove_item_absent_witness :
    dictContains [] "x" = false ∧
      remove_item [] "x" (.vint 0) = ([], .error .NotFoundKind) ∧
      remove_item [] "x" (.vstr "q") = ([], .error .ValueKind) :=
  ⟨by decide,
   (remove_item_absent [] "x" (.vint 0) (by decide)).1 (by decide) (by decide),
   (remove_item_absent [] "x" (.vstr "q") (by decide)).2 (by decide)⟩

/-- C2 is false as stated: with the absent item `"x"` and the negative
quantity `-1`, `remove_item` raises `ValueKind` (quantity validation
runs first), not `NotFoundKind`. -/
theorem remove_item_absent_counterexample :
    ¬ ((remove_item [] "x" (.vint (-1))).2 = .error .NotFoundKind) := by
  decide

theorem add_item_valid_eq (t : Table) (item : String) (qty : Int)
    (hitem : isBlank item = false) (hqty : 0 ≤ qty) :
    add_item t (.vstr item) (.vint qty) =
      (dictSet t item (dictGetD t item 0 + qty), .ok true) := by
  rw [add_item, if_neg (by simp [Val.isStr]), if_neg (by simp [Val.asStr, hitem]),
    if_neg (by simp [Val.isInt]), if_neg (by simp [Val.asInt]; omega)]
  rfl

/-- C3: for every string item that is non-empty after trimming and every
integer quantity ≥ 0, `add_item` succeeds returning `True`, the stored
quantity becomes the previous quantity (0 when absent) plus the added
quantity, and `get_qty` then returns exactly that sum. -/
theorem add_item_adds (t : Table) (item : String) (qty : Int)
    (hitem : isBlank item = false) (hqty : 0 ≤ qty) :
    (add_item t (.vstr item) (.vint qty)).2 = .ok true ∧
    dictGet (add_item t (.vstr item) (.vint qty)).1 item =
      some (dictGetD t item 0 + qty) ∧
    get_qty (add_item t (.vstr item) (.vint qty)).1 item =
      .ok (dictGetD t item 0 + qty) := by
  rw [add_item_valid_eq t item qty hitem hqty]
  exact ⟨rfl, dictGet_dictSet_self t item _, get_qty_dictSet_self t item _⟩

/-- Witness for C3 at a concrete input. -/
theorem add_item_adds_witness :
    isBlank "a" = false ∧ 0 ≤ (2 : Int) ∧
      (add_item [("a", 1)] (.vstr "a") (.vint 2)).2 = .ok true ∧
      get_qty (add_item [("a", 1)] (.vstr "a") (.vint 2)).1 "a" = .ok 3 :=
  ⟨by decide, by decide,
   (add_item_adds [("a", 1)] "a" 2 (by decide) (by decide)).1,
   (add_item_adds [("a", 1)] "a" 2 (by decide) (by decide)).2.2⟩

/-- C4: for an item present with quantity `q` and integer removal amount
`r ≥ 0`: when `r ≥ q` the entry is deleted and `get_qty` then fails with
`NotFoundKind`; when `r < q` the stored quantity becomes `q - r` and
`get_qty` returns it; in both cases `remove_item` returns `True`. -/
theorem remove_item_present (t : Table) (item : String) (q r : Int)
    (hq : dictGet t item = some q) (hr : 0 ≤ r) :
    (q ≤ r → dictGet (remove_item t item (.vint r)).1 item = none ∧
        get_qty (remove_item t item (.vint r)).1 item = .error .NotFoundKind) ∧
    (r < q → dictGet (remove_item t item (.vint r)).1 item = some (q - r) ∧
        get_qty (remove_item t item (.vint r)).1 item = .ok (q - r)) ∧
    (remove_item t item (.vint r)).2 = .ok true := by
  have hcontains : dictContains t item = true := by
    simp [dictContains, hq]
  have hgetD : dictGetD t item 0 = q := by
    simp [dictGetD, hq]
  have hvalid : ¬ (¬ (Val.vint r).isInt = true ∨ (Val.vint r).asInt < 0) := by
    simp [Val.isInt, Val.asInt]
    omega
  by_cases hle : q ≤ r
  · have hform : remove_item t item (.vint r) = (dictDel t item, .ok true) := by
      rw [remove_item, if_neg hvalid, if_neg (by simp [hcontains]),
        if_pos (by rw [hgetD]; simp [Val.asInt]; omega)]
    rw [hform]
    refine ⟨fun _ => ⟨dictGet_dictDel_self t item, get_qty_dictDel_self t item⟩,
      fun hlt => absurd hle (by omega), rfl⟩
  · have hform : remove_item t item (.vint r) =
        (dictSet t item (q - r), .ok true) := by
      rw [remove_item, if_neg hvalid, if_neg (by simp [hcontains]),
        if_neg (by rw [hgetD]; simp [Val.asInt]; omega)]
      rw [hgetD]
      rfl
    rw [hform]
    exact ⟨fun h => absurd h hle,
      fun _ => ⟨dictGet_dictSet_self t item _, get_qty_dictSet_self t item _⟩, rfl⟩

/-- Witness for C4 at concrete inputs, covering both branches. -/
theorem remove_item_present_witness :
    dictGet [("a", 5)] "a" = some 5 ∧
      get_qty (remove_item [("a", 5)] "a" (.vint 5)).1 "a" = .error .NotFoundKind ∧
      get_qty (remove_item [("a", 5)] "a" (.vint 2)).1 "a" = .ok 3 :=
  ⟨by decide,
   ((remove_item_present [("a", 5)] "a" 5 5 (by decide) (by decide)).1 (by decide)).2,
   by
    have h := ((remove_item_present [("a", 5)] "a" 5 2 (by decide) (by decide)).2.1
      (by decide)).2
    simpa using h⟩

/-- C5: for every table state satisfying the table invariant, saving to a
path and then loading from the same path yields back exactly the saved
table (same keys mapped to the same quantities) and succeeds. -/
theorem save_load_roundtrip (t : Table) (fs : FS) (path : String)
    (_hinv : TableInv t) :
    load_data t (save_data t fs path).1 path = (t, .ok ()) := by
  rw [load_data, save_data]
  simp

/-- Witness for C5 at a concrete state. -/
theorem save_load_roundtrip_witness :
    TableInv [("a", 2), ("b", 7)] ∧
      load_data [("a", 2), ("b", 7)]
        (save_data [("a", 2), ("b", 7)] (fun _ => none) "inventory.json").1
        "inventory.json" = ([("a", 2), ("b", 7)], .ok ()) := by
  have hinv : TableInv [("a", 2), ("b", 7)] := by
    unfold TableInv
    decide
  exact ⟨hinv, save_load_roundtrip [("a", 2), ("b", 7)] (fun _ => none)
    "inventory.json" hinv⟩

/-- C6: `add_item` validates in the fixed order item-type, item-blank,
qty-type, qty-sign, raising `TypeKind`, `ValueKind`, `TypeKind`,
`ValueKind` respectively, and every failure path leaves the table
unchanged. -/
theorem add_item_validation (t : Table) (item qty : Val) :
    (item.isStr = false → add_item t item qty = (t, .error .TypeKind)) ∧
    (item.isStr = true → isBlank item.asStr = true →
        add_item t item qty = (t, .error .ValueKind)) ∧
    (item.isStr = true → isBlank item.asStr = false → qty.isInt = false →
        add_item t item qty = (t, .error .TypeKind)) ∧
    (item.isStr = true → isBlank item.asStr = false → qty.isInt = true →
        qty.asInt < 0 → add_item t item qty = (t, .error .ValueKind)) := by
  refine ⟨fun h1 => ?_, fun h1 h2 => ?_, fun h1 h2 h3 => ?_, fun h1 h2 h3 h4 => ?_⟩
  · rw [add_item, if_pos (by simp [h1])]
  · rw [add_item, if_neg (by simp [h1]), if_pos h2]
  · rw [add_item, if_neg (by simp [h1]), if_neg (by simp [h2]),
      if_pos (by simp [h3])]
  · rw [add_item, if_neg (by simp [h1]), if_neg (by simp [h2]),
      if_neg (by simp [h3]), if_pos h4]

/-- Witness for C6, exercising all four failure paths concretely. -/
theorem add_item_validation_witness :
    add_item [("a", 1)] (.vint 3) (.vint 2) = ([("a", 1)], .error .TypeKind) ∧
      add_item [("a", 1)] (.vstr " ") (.vint 2) = ([("a", 1)], .error .ValueKind) ∧
      add_item [("a", 1)] (.vstr "b") (.vstr "x") = ([("a", 1)], .error .TypeKind) ∧
      add_item [("a", 1)] (.vstr "b") (.vint (-2)) = ([("a", 1)], .error .ValueKind) :=
  ⟨(add_item_validation [("a", 1)] (.vint 3) (.vint 2)).1 (by decide),
   (add_item_validation [("a", 1)] (.vstr " ") (.vint 2)).2.1 (by decide) (by decide),
   (add_item_validation [("a", 1)] (.vstr "b") (.vstr "x")).2.2.1 (by decide)
     (by decide) (by decide),
   (add_item_validation [("a", 1)] (.vstr "b") (.vint (-2))).2.2.2 (by decide)
     (by decide) (by decide) (by decide)⟩

/-- C7: loading from a path with no file does not fail: the table is
replaced by the empty table (the warning is printed, not raised) and the
operation completes successfully. -/
theorem load_data_missing_file (t : Table) (fs : FS) (path : String)
    (h : fs path = none) :
    load_data t fs path = ([], .ok ()) := by
  rw [load_data, h]

/-- Witness for C7 on an empty file system. -/
theorem load_data_missing_file_witness :
    (fun _ : String => (none : Option FileData)) "p" = none ∧
      load_data [("a", 1)] (fun _ => none) "p" = ([], .ok ()) :=
  ⟨rfl, load_data_missing_file [("a", 1)] (fun _ => none) "p" rfl⟩

/-- C8: loading from a path whose file exists but is malformed fails with
`ParseKind` and leaves the in-memory table exactly in its prior state
(the decode error is raised before the table assignment). -/
theorem load_data_malformed_file (t : Table) (fs : FS) (path : String)
    (h : fs path = some .malformed) :
    load_data t fs path = (t, .error .ParseKind) := by
  rw [load_data, h]

/-- Witness for C8 on a file system holding one malformed file. -/
theorem load_data_malformed_file_witness :
    (fun _ : String => some FileData.malformed) "p" = some .malformed ∧
      load_data [("a", 1)] (fun _ => some .malformed) "p" =
        ([("a", 1)], .error .ParseKind) :=
  ⟨rfl, load_data_malformed_file [("a", 1)] (fun _ => some .malformed) "p" rfl⟩

/-- C9: for every table and every integer threshold, `check_low_items`
returns exactly the keys of the entries whose quantity is strictly below
the threshold, in the table's iteration order; on the table
`{"apple": 10, "banana": 3, "cherry": 5}` with the default threshold 5
it returns exactly `["banana"]`.  (`check_low_items` only reads the
table, which is passed by value in this embedding.) -/
theorem check_low_items_spec :
    (∀ (t : Table) (threshold : Int),
        check_low_items t threshold =
          (t.filter fun p => decide (p.2 < threshold)).map Prod.fst) ∧
    check_low_items [("apple", 10), ("banana", 3), ("cherry", 5)] 5 = ["banana"] := by
  constructor
  · intro t threshold
    induction t with
    | nil => simp [check_low_items]
    | cons hd tl ih =>
        obtain ⟨item, quantity⟩ := hd
        by_cases h : quantity < threshold <;>
          simp [check_low_items, List.filter, h, ih]
  · decide

/-- C10: adding quantity 0 for a valid item name absent from the table
succeeds and creates an explicit entry with stored quantity 0, after
which `get_qty` returns 0 rather than failing with `NotFoundKind`. -/
theorem add_item_zero_absent (t : Table) (item : String)
    (habs : dictGet t item = none) (hitem : isBlank item = false) :
    (add_item t (.vstr item) (.vint 0)).2 = .ok true ∧
    dictGet (add_item t (.vstr item) (.vint 0)).1 item = some 0 ∧
    get_qty (add_item t (.vstr item) (.vint 0)).1 item = .ok 0 := by
  rw [add_item_valid_eq t item 0 hitem (by omega), dictGetD, habs,
    Option.getD_none, add_zero]
  exact ⟨rfl, dictGet_dictSet_self t item 0, get_qty_dictSet_self t item 0⟩

/-- Witness for C10 at a concrete input. -/
theorem add_item_zero_absent_witness :
    dictGet [("b", 4)] "a" = none ∧ isBlank "a" = false ∧
      get_qty (add_item [("b", 4)] (.vstr "a") (.vint 0)).1 "a" = .ok 0 :=
  ⟨by decide, by decide,
   (add_item_zero_absent [("b", 4)] "a" (by decide) (by decide)).2.2⟩

end Inventory
